import Mathlib

/-
Verification development for the Berlin bridge geocoder
(geocode_bridges.py).  The Python source is shallowly embedded: strings
are lists of characters, Python dicts keyed by strings are association
lists with in-place overwrite, floats are modelled as rationals, and the
handful of regular expressions the source uses are compiled by hand into
deterministic scanners with the same leftmost-match semantics.
Network fetching, HTML parsing and file I/O are external collaborators
and appear only as the already-parsed inputs of the functions below.
-/

namespace GeocodeBridges

/-- Python strings are modelled as lists of characters. -/
abbrev Str := List Char

/-- Whitespace as recognised by Python's str.strip and the regex class
backslash-s on the character repertoire of this data set. -/
def isSpacePy (c : Char) : Bool :=
  c = ' ' || c = '\t' || c = '\n' || c = '\r' || c = '\x0b' || c = '\x0c' ||
  c = '\x85' || c = '\xa0'

/-- ASCII digits, the regex class backslash-d on this data set. -/
def isDigitPy (c : Char) : Bool :=
  '0' ≤ c && c ≤ '9'

/-- Python str.lower restricted to Basic Latin and Latin-1 letters plus
the capital sharp s (the repertoire occurring in this data set).
0xD7 is the multiplication sign, which has no lowercase form. -/
def toLowerPy (c : Char) : Char :=
  if 'A' ≤ c && c ≤ 'Z' then Char.ofNat (c.toNat + 32)
  else if 0xC0 ≤ c.toNat && c.toNat ≤ 0xDE && c.toNat ≠ 0xD7 then Char.ofNat (c.toNat + 32)
  else if c = 'ẞ' then 'ß'
  else c

/-- The character class of the final filter re.sub(r"[^a-z0-9 \-]", "", s):
true for the characters that survive. -/
def allowedChar (c : Char) : Bool :=
  ('a' ≤ c && c ≤ 'z') || ('0' ≤ c && c ≤ '9') || c = ' ' || c = '-'

/-- Compatibility decomposition (unicodedata.normalize("NFKD", _)) per
character, restricted to the repertoire that can reach this step of the
pipeline: identity on ASCII, a table for common precomposed Latin
letters, identity otherwise. -/
def nfkdChar (c : Char) : List Char :=
  if c.toNat < 128 then [c]
  else match c with
    | 'à' => ['a', '̀'] | 'á' => ['a', '́'] | 'â' => ['a', '̂']
    | 'ã' => ['a', '̃'] | 'å' => ['a', '̊']
    | 'è' => ['e', '̀'] | 'é' => ['e', '́'] | 'ê' => ['e', '̂']
    | 'ë' => ['e', '̈']
    | 'ì' => ['i', '̀'] | 'í' => ['i', '́'] | 'î' => ['i', '̂']
    | 'ï' => ['i', '̈']
    | 'ò' => ['o', '̀'] | 'ó' => ['o', '́'] | 'ô' => ['o', '̂']
    | 'õ' => ['o', '̃']
    | 'ù' => ['u', '̀'] | 'ú' => ['u', '́'] | 'û' => ['u', '̂']
    | 'ç' => ['c', '̧'] | 'ñ' => ['n', '̃'] | 'ý' => ['y', '́']
    | 'ä' => ['a', '̈'] | 'ö' => ['o', '̈'] | 'ü' => ['u', '̈']
    | _ => [c]

/-- Characters dropped by the unicodedata.combining(ch) test: the
combining diacritical marks block, except U+034F whose combining class
is zero. -/
def isCombining (c : Char) : Bool :=
  0x300 ≤ c.toNat && c.toNat ≤ 0x36F && c.toNat ≠ 0x34F

/-- Does pat occur at the very start of s (case-sensitive)? -/
def matchesAt : Str → Str → Bool
  | [], _ => true
  | _ :: _, [] => false
  | p :: ps, c :: cs => p = c && matchesAt ps cs

/-- Does needle occur anywhere in hay (Python's "in" on strings)? -/
def isSub (needle : Str) : Str → Bool
  | [] => needle.isEmpty
  | c :: cs => matchesAt needle (c :: cs) || isSub needle cs

/-- Python str.replace: replace every non-overlapping occurrence of pat
in s by rep, scanning left to right.  The fuel argument (instantiated
with the length of s) serves structural termination only; at least one
character of s is consumed per step, so it never runs out. -/
def pyReplaceAux (pat rep : Str) : Nat → Str → Str
  | 0, s => s
  | fuel + 1, s =>
    match s with
    | [] => []
    | c :: cs =>
      if !pat.isEmpty && matchesAt pat s then rep ++ pyReplaceAux pat rep fuel (s.drop pat.length)
      else c :: pyReplaceAux pat rep fuel cs

/-- Python s.replace(pat, rep). -/
def pyReplace (s pat rep : Str) : Str :=
  pyReplaceAux pat rep s.length s

/-- Python s.strip(): drop leading and trailing whitespace. -/
def pyStrip (s : Str) : Str :=
  ((s.dropWhile isSpacePy).reverse.dropWhile isSpacePy).reverse

/-- One step of re.sub(r"\[\s*\d+\s*\]", "", s): if cs (the text after
an opening bracket) starts with a footnote body, return the text after
the closing bracket. -/
def footTail (cs : Str) : Option Str :=
  let r1 := cs.dropWhile isSpacePy
  let ds := r1.takeWhile isDigitPy
  if ds.isEmpty then none
  else
    match (r1.dropWhile isDigitPy).dropWhile isSpacePy with
    | ']' :: r4 => some r4
    | _ => none

/-- Scanner for strip_footnotes, fuelled for structural termination
(each step consumes at least one character of s). -/
def stripFootnotesAux : Nat → Str → Str
  | 0, s => s
  | fuel + 1, s =>
    match s with
    | [] => []
    | c :: cs =>
      if c = '[' then
        match footTail cs with
        | some rest => stripFootnotesAux fuel rest
        | none => c :: stripFootnotesAux fuel cs
      else c :: stripFootnotesAux fuel cs

/-- strip_footnotes: remove bracketed integer footnote markers, i.e.
re.sub(r"\[\s*\d+\s*\]", "", s). -/
def stripFootnotes (s : Str) : Str :=
  stripFootnotesAux s.length s

/-- re.sub(r"\s+", " ", s): collapse every whitespace run to one space.
Fuelled for structural termination. -/
def collapseWsAux : Nat → Str → Str
  | 0, s => s
  | fuel + 1, s =>
    match s with
    | [] => []
    | c :: cs =>
      if isSpacePy c then ' ' :: collapseWsAux fuel (cs.dropWhile isSpacePy)
      else c :: collapseWsAux fuel cs

/-- re.sub(r"\s+", " ", s). -/
def collapseWs (s : Str) : Str :=
  collapseWsAux s.length s

/-- The ordered abbreviation table of normalize_name (a Python dict,
iterated in insertion order). -/
def abbrevs : List (String × String) :=
  [(" d. ", " der "),
   (" d.", " der"),
   ("nördl.", "noerdliche"),
   ("südl.", "suedliche"),
   ("östl.", "oestliche"),
   ("westl.", "westliche"),
   ("br.", "bruecke"),
   ("str.", "strasse"),
   ("bw.", "bauwerk "),
   ("bw ", "bauwerk "),
   ("uebb", "ueberbau"),
   ("übb", "ueberbau"),
   ("fgb ", "fussgaengerbruecke "),
   ("laakebruecke", "laake-bruecke")]

/-- normalize_name on character lists, step for step as in the source:
footnotes, dashes, eszett, umlauts, lowercase plus abbreviation table,
strip, whitespace collapse, NFKD with combining-mark removal, character
filter, strip. -/
def normalizeName (s0 : Str) : Str :=
  let s1 := stripFootnotes s0
  let s2 := pyReplace s1 ['–'] ['-']
  let s3 := pyReplace s2 ['—'] ['-']
  let s4 := pyReplace s3 ['ß'] ['s', 's']
  let s5 := pyReplace s4 ['ä'] ['a', 'e']
  let s6 := pyReplace s5 ['ö'] ['o', 'e']
  let s7 := pyReplace s6 ['ü'] ['u', 'e']
  let s8 := pyReplace s7 ['Ä'] ['A', 'e']
  let s9 := pyReplace s8 ['Ö'] ['O', 'e']
  let s10 := pyReplace s9 ['Ü'] ['U', 'e']
  let sl := s10.map toLowerPy
  let sa := abbrevs.foldl (fun acc pr => pyReplace acc pr.1.data pr.2.data) sl
  let sb := pyStrip sa
  let sc := collapseWs sb
  let sd := (sc.flatMap nfkdChar).filter (fun c => !isCombining c)
  let se := sd.filter allowedChar
  pyStrip se

/-- normalize_name of the source, at the String level. -/
def normalize_name (s : String) : String :=
  ⟨normalizeName s.data⟩

/-- A resolved reference entry.  Wikipedia entries carry a source_url
and no source label (hit.get("source", "Wikipedia") then defaults); WFS
entries carry a source label and a bauwerksnummer. -/
structure Entry where
  lat : ℚ
  lon : ℚ
  source : Option String
  source_url : Option String
  raw_name : String
  bauwerksnummer : Option String
deriving DecidableEq, Repr

/-- A reference index: a Python dict from normalized name to entry,
modelled as an association list in insertion order with unique keys. -/
abbrev Index := List (String × Entry)

/-- Python key in dict plus dict[key]. -/
def dlookup (idx : Index) (k : String) : Option Entry :=
  (idx.find? (fun p => p.1 == k)).map (fun p => p.2)

/-- Python dict[key] = entry: overwrite in place if the key exists,
else append (dicts preserve insertion order). -/
def dinsert (idx : Index) (k : String) (e : Entry) : Index :=
  if idx.any (fun p => p.1 == k) then
    idx.map (fun p => if p.1 == k then (k, e) else p)
  else idx ++ [(k, e)]

/-- search_indices of match_bridge: look a key up in both indices,
Wikipedia first. -/
def search_indices (wiki wfs : Index) (key : String) : Option Entry :=
  match dlookup wiki key with
  | some e => some e
  | none => dlookup wfs key

/-- fuzzy_search_wfs of match_bridge: first WFS item (in index order)
whose key contains the search key or is contained in it. -/
def fuzzy_search_wfs (wfs : Index) (searchKey : String) : Option Entry :=
  (wfs.find? (fun p => isSub searchKey.data p.1.data || isSub p.1.data searchKey.data)).map
    (fun p => p.2)

/-- Case-insensitive literal prefix test (regex IGNORECASE on the
character repertoire of this data set). -/
def ciStartsWith : Str → Str → Bool
  | [], _ => true
  | _ :: _, [] => false
  | p :: ps, c :: cs => toLowerPy p = toLowerPy c && ciStartsWith ps cs

/-- End-of-string as matched by the regex anchor in non-MULTILINE mode:
the true end, or just before a single final newline. -/
def endOk : Str → Bool
  | [] => true
  | ['\n'] => true
  | _ => false

/-- re.sub(pat + dollar-anchor, rep, s, IGNORECASE) for a literal pat:
replace the leftmost end-anchored case-insensitive occurrence.  At most
one match exists because the anchor pins it to the end of the string. -/
def subSuffixCI (pat rep : Str) : Str → Str
  | [] => []
  | c :: cs =>
    if ciStartsWith pat (c :: cs) && endOk ((c :: cs).drop pat.length) then
      rep ++ (c :: cs).drop pat.length
    else c :: subSuffixCI pat rep cs

/-- re.sub for an unanchored literal pattern with IGNORECASE: replace
every non-overlapping occurrence left to right.  Fuelled for structural
termination. -/
def pyReplaceCIAux (pat rep : Str) : Nat → Str → Str
  | 0, s => s
  | fuel + 1, s =>
    match s with
    | [] => []
    | c :: cs =>
      if !pat.isEmpty && ciStartsWith pat s then rep ++ pyReplaceCIAux pat rep fuel (s.drop pat.length)
      else c :: pyReplaceCIAux pat rep fuel cs

/-- re.sub of an unanchored case-insensitive literal. -/
def pyReplaceCI (s pat rep : Str) : Str :=
  pyReplaceCIAux pat rep s.length s

/-- One alternative of re.sub(r"^(Fußgängerbrücke|Fussgangerbrucke)\s+", "", name):
if word matches case-insensitively at the start and is followed by
whitespace, return the text after the (greedy) whitespace run. -/
def stripLeadWith (word : Str) (s : Str) : Option Str :=
  if ciStartsWith word s then
    match s.drop word.length with
    | c :: cs => if isSpacePy c then some (cs.dropWhile isSpacePy) else none
    | [] => none
  else none

/-- The whole leading-qualifier sub of the variations list; the anchor
limits it to position zero, alternatives tried in regex order. -/
def stripLeadFgb (s : Str) : Str :=
  match stripLeadWith "Fußgängerbrücke".data s with
  | some r => r
  | none =>
    match stripLeadWith "Fussgangerbrucke".data s with
    | some r => r
    | none => s

/-- The variations list of match_bridge, in source order. -/
def variationsL (name : Str) : List Str :=
  [pyReplace name ['-'] [' '],
   pyReplace name [' '] ['-'],
   subSuffixCI "brücke".data "bruecke".data name,
   pyReplaceCI name "straße".data "strasse".data,
   stripLeadFgb name,
   subSuffixCI "östlicher Teil".data "ÜBB Ost".data name,
   subSuffixCI "westlicher Teil".data "ÜBB West".data name,
   subSuffixCI "nördlicher Teil".data "ÜBB Nord".data name,
   subSuffixCI "südlicher Teil".data "ÜBB Süd".data name,
   subSuffixCI "nordwestlicher Teil".data "ÜBB Nordwest".data name,
   subSuffixCI "südöstlicher Teil".data "ÜBB Südost".data name,
   subSuffixCI "nordöstlicher Teil".data "ÜBB Nordost".data name,
   subSuffixCI "südwestlicher Teil".data "ÜBB Südwest".data name,
   subSuffixCI "nördlicher Überbau".data "ÜBB Nord".data name,
   subSuffixCI "südlicher Überbau".data "ÜBB Süd".data name,
   subSuffixCI "mittlerer Überbau".data "ÜBB Mitte".data name]

/-- Case-insensitive literal alternative of the strategy-2 suffix
pattern, anchored at the end: returns the leftover after the anchor
(empty, or a kept final newline) on success. -/
def ciLitEnd (pat : String) (cs : Str) : Option Str :=
  if ciStartsWith pat.data cs && endOk (cs.drop pat.data.length) then some (cs.drop pat.data.length)
  else none

/-- Alternative of the form literal + backslash-s* + backslash-d+ +
end anchor (the überbau / teilbauwerk branches). -/
def litNumEnd (pat : String) (cs : Str) : Option Str :=
  if ciStartsWith pat.data cs then
    let r := (cs.drop pat.data.length).dropWhile isSpacePy
    let ds := r.takeWhile isDigitPy
    if !ds.isEmpty && endOk (r.drop ds.length) then some (r.drop ds.length) else none
  else none

/-- Alternative bauwerk + backslash-s* + backslash-d+ + [a-z]? + end
anchor ([a-z] is case-insensitive here). -/
def litNumLetterEnd (pat : String) (cs : Str) : Option Str :=
  if ciStartsWith pat.data cs then
    let r := (cs.drop pat.data.length).dropWhile isSpacePy
    let ds := r.takeWhile isDigitPy
    if ds.isEmpty then none
    else
      match r.drop ds.length with
      | [] => some []
      | c :: r3 =>
        if endOk (c :: r3) then some (c :: r3)
        else if ('a' ≤ toLowerPy c && toLowerPy c ≤ 'z') && endOk r3 then some r3
        else none
  else none

/-- Alternative literal + dot-star + end anchor (gewölbe / galerie
branches); dot does not cross a newline. -/
def litAnyEnd (pat : String) (cs : Str) : Option Str :=
  if ciStartsWith pat.data cs then
    let r := cs.drop pat.data.length
    let b := r.takeWhile (fun c => c ≠ '\n')
    if endOk (r.drop b.length) then some (r.drop b.length) else none
  else none

/-- The alternation of the strategy-2 suffix pattern, tried in regex
order, applied to the text that follows the whitespace run. -/
def suffix2At (cs : Str) : Option Str :=
  (ciLitEnd "südost" cs).orElse fun _ =>
  (ciLitEnd "nordwest" cs).orElse fun _ =>
  (ciLitEnd "nord" cs).orElse fun _ =>
  (ciLitEnd "süd" cs).orElse fun _ =>
  (ciLitEnd "ost" cs).orElse fun _ =>
  (ciLitEnd "west" cs).orElse fun _ =>
  (litNumEnd "überbau" cs).orElse fun _ =>
  (litNumEnd "teilbauwerk" cs).orElse fun _ =>
  (litNumLetterEnd "bauwerk" cs).orElse fun _ =>
  (litAnyEnd "gewölbe" cs).orElse fun _ =>
  litAnyEnd "galerie" cs

/-- re.sub of the strategy-2 suffix pattern (whitespace run, then one
alternative, then the end anchor): scan for the leftmost whitespace
position whose following run is headed by a matching alternative; all
alternatives start with a letter, so a match can only start at the
first whitespace of its run. -/
def stripSuffixL : Str → Str
  | [] => []
  | c :: cs =>
    if isSpacePy c then
      match suffix2At (cs.dropWhile isSpacePy) with
      | some leftover => leftover
      | none => c :: stripSuffixL cs
    else c :: stripSuffixL cs

/-- The base_name computation of match_bridge (strategy 2 stripping). -/
def strip_suffix (s : String) : String :=
  ⟨stripSuffixL s.data⟩

/-- The token alternation of the strategy-5 re.split pattern, in source
order. -/
def mainTokens : List String :=
  ["nordwest", "südost", "nordost", "südwest", "nord", "süd", "ost", "west",
   "nördlich", "südlich", "östlich", "westlich", "bauwerk", "überbau",
   "teilbauwerk", "havelquerung", "vorlandbrücke", "uferbrücke"]

/-- Does one of the split tokens match (case-insensitively) at the
start of cs?  The tokens are unanchored, so a prefix match suffices. -/
def mainTokenAt (cs : Str) : Bool :=
  mainTokens.any (fun t => ciStartsWith t.data cs)

/-- re.split(whitespace-run + token, name)[0]: the text before the
leftmost match; tokens start with letters, so a match can only start at
the first whitespace of its run. -/
def mainSplitL : Str → Str
  | [] => []
  | c :: cs =>
    if isSpacePy c && mainTokenAt (cs.dropWhile isSpacePy) then []
    else c :: mainSplitL cs

/-- The main_name computation of match_bridge (split then strip). -/
def main_name_of (s : String) : String :=
  ⟨pyStrip (mainSplitL s.data)⟩

/-- A structure record as loaded from the JSON files.  Fields the
code never reads or writes are collected in rest, so that frame
theorems can state that they are untouched. -/
structure Bridge where
  id : Option String := none
  bezirk : Option String := none
  name : Option String := none
  detail : Option String := none
  lat : Option ℚ := none
  lon : Option ℚ := none
  coord_quelle : Option String := none
  rest : List (String × String) := []
deriving DecidableEq, Repr

/-- The variations loop of match_bridge: first exact hit over the
variation list wins, indices consulted in priority order per variant. -/
def firstVarHit (wiki wfs : Index) : List Str → Option Entry
  | [] => none
  | v :: vs =>
    match search_indices wiki wfs (normalize_name ⟨v⟩) with
    | some hit => some hit
    | none => firstVarHit wiki wfs vs

/-- match_bridge of the source: the strategy chain (exact, suffix-
stripped, variations, fuzzy containment on the WFS index, main-name
extraction plus fuzzy containment). -/
def match_bridge (b : Bridge) (wiki wfs : Index) : Option Entry :=
  let name := b.name.getD ""
  if name = "" then none
  else
    match search_indices wiki wfs (normalize_name name) with
    | some hit => some hit
    | none =>
      let base_name := strip_suffix name
      match (if base_name ≠ name then search_indices wiki wfs (normalize_name base_name) else none) with
      | some hit => some hit
      | none =>
        match firstVarHit wiki wfs (variationsL name.data) with
        | some hit => some hit
        | none =>
          let key := normalize_name (if base_name ≠ name then base_name else name)
          match (if 6 ≤ key.length then fuzzy_search_wfs wfs key else none) with
          | some hit => some hit
          | none =>
            let main_name := main_name_of name
            if main_name ≠ "" ∧ main_name ≠ name then
              let key2 := normalize_name main_name
              if 6 ≤ key2.length then fuzzy_search_wfs wfs key2 else none
            else none

/-- Value of an ASCII digit string. -/
def digitsToNat (ds : Str) : Nat :=
  ds.foldl (fun a c => a * 10 + (c.toNat - '0'.toNat)) 0

/-- Python float(...) of a matched number: integer digits, optional
fraction digits, optional leading minus.  Floats are modelled as exact
rationals. -/
def ratOfParts (neg : Bool) (ds fr : Str) : ℚ :=
  let v : ℚ := (digitsToNat ds : ℚ) + (digitsToNat fr : ℚ) / ((10 : ℚ) ^ fr.length)
  if neg then -v else v

/-- Parse one number of COORD_RE at the current position:
-?\d+(?:\.\d+)? with greedy digit and fraction runs.  The committed
greedy parse agrees with the backtracking regex here because any
shorter parse leaves a digit or a dot where whitespace is required
next. -/
def parseNumAt (cs : Str) : Option (ℚ × Str) :=
  let (neg, r0) := match cs with
    | '-' :: r => (true, r)
    | _ => (false, cs)
  let ds := r0.takeWhile isDigitPy
  if ds.isEmpty then none
  else
    let r1 := r0.drop ds.length
    match r1 with
    | '.' :: r =>
      let fs := r.takeWhile isDigitPy
      if fs.isEmpty then some (ratOfParts neg ds [], r1)
      else some (ratOfParts neg ds fs, r.drop fs.length)
    | _ => some (ratOfParts neg ds [], r1)

/-- COORD_RE.search: leftmost occurrence of two whitespace-separated
numbers; returns the pair (used as latitude then longitude). -/
def coordSearchL : Str → Option (ℚ × ℚ)
  | [] => none
  | c :: cs =>
    match parseNumAt (c :: cs) with
    | some (a, r1) =>
      (match r1 with
       | d :: _ =>
         if isSpacePy d then
           match parseNumAt (r1.dropWhile isSpacePy) with
           | some (b, _) => some (a, b)
           | none => coordSearchL cs
         else coordSearchL cs
       | [] => coordSearchL cs)
    | none => coordSearchL cs

/-- COORD_RE.search at the String level. -/
def coord_search (s : String) : Option (ℚ × ℚ) :=
  coordSearchL s.data

/-- WIKI_BASE of the source. -/
def WIKI_BASE : String :=
  "https://de.wikipedia.org/wiki/Liste_der_Br%C3%BCcken_in_Berlin"

/-- The per-row body of build_wiki_index: rows with fewer than five
cells or without a parseable coordinate pair are skipped; otherwise the
row is registered under the normalized name of cell 1, the later row
winning on key collision.  Fetching and HTML-to-cells parsing are
external collaborators; a row is its list of cell texts. -/
def wikiRowStep (seg : String) (idx : Index) (cells : List String) : Index :=
  if cells.length < 5 then idx
  else
    match coord_search (cells.getD 4 "") with
    | none => idx
    | some (la, lo) =>
      dinsert idx (normalize_name (cells.getD 1 ""))
        { lat := la, lon := lo, source := none,
          source_url := some (WIKI_BASE ++ "/" ++ seg),
          raw_name := cells.getD 1 "", bauwerksnummer := none }

/-- build_wiki_index on the parsed rows of one segment. -/
def build_wiki_index (seg : String) (rows : List (List String)) : Index :=
  rows.foldl (wikiRowStep seg) []

/-- A GeoJSON geometry as consumed by build_wfs_index: coordinate
pairs are (longitude, latitude). -/
inductive Geom where
  | lineString (coords : List (ℚ × ℚ))
  | multiLineString (coords : List (List (ℚ × ℚ)))
  | otherType
deriving DecidableEq, Repr

/-- A WFS feature after JSON parsing (an external collaborator):
geometry none models a missing or empty geometry object. -/
structure Feature where
  bauwerksname : String := ""
  bauwerksnummer : String := ""
  geometry : Option Geom := none
deriving DecidableEq, Repr

/-- The entry build_wfs_index registers: the centroid (arithmetic mean
over all points) of the geometry, with the WFS provenance fields. -/
def wfsEntry (f : Feature) (pts : List (ℚ × ℚ)) : Entry :=
  { lat := ((pts.map Prod.snd).sum) / (pts.length : ℚ),
    lon := ((pts.map Prod.fst).sum) / (pts.length : ℚ),
    source := some "WFS Detailnetz Berlin",
    source_url := none,
    raw_name := f.bauwerksname,
    bauwerksnummer := some f.bauwerksnummer }

/-- The per-feature body of build_wfs_index: skip features with empty
name, missing geometry, empty coordinates, a geometry type other than
LineString / MultiLineString, or no points after flattening; otherwise
register the centroid entry under the normalized name. -/
def wfsStep (idx : Index) (f : Feature) : Index :=
  if f.bauwerksname = "" then idx
  else
    match f.geometry with
    | none => idx
    | some (Geom.lineString pts) =>
      if pts.isEmpty then idx
      else dinsert idx (normalize_name f.bauwerksname) (wfsEntry f pts)
    | some (Geom.multiLineString lines) =>
      if lines.isEmpty then idx
      else
        let all_points := lines.flatMap id
        if all_points.isEmpty then idx
        else dinsert idx (normalize_name f.bauwerksname) (wfsEntry f all_points)
    | some Geom.otherType => idx

/-- build_wfs_index on the parsed features (the fetch itself is an
external collaborator; a failed fetch contributes an empty list). -/
def build_wfs_index (features : List Feature) : Index :=
  features.foldl wfsStep []

/-- A row of the unmatched report; section is only set by the
bruecken.json pass. -/
structure Unmatched where
  file : String
  sect : Option String := none
  id : Option String := none
  bezirk : Option String := none
  name : Option String := none
  detail : Option String := none
deriving DecidableEq, Repr

/-- What happened to one record in an enrichment pass. -/
inductive Outcome where
  | already
  | matched
  | unmatched
deriving DecidableEq, Repr

/-- The coord_quelle provenance string set on a hit:
hit.get("source", "Wikipedia") plus the raw display name. -/
def quelleOf (hit : Entry) : String :=
  (hit.source.getD "Wikipedia") ++ ": " ++ hit.raw_name

/-- The per-record body shared verbatim by geocode_tagesspiegel and
both loops of geocode_bruecken_json: a record with both coordinates is
counted as pre-existing and skipped; otherwise it is resolved, and on a
hit lat, lon and coord_quelle are set. -/
def enrichStep (wiki wfs : Index) (b : Bridge) : Bridge × Outcome :=
  if b.lat ≠ none ∧ b.lon ≠ none then (b, Outcome.already)
  else
    match match_bridge b wiki wfs with
    | some hit =>
      ({ b with lat := some hit.lat, lon := some hit.lon,
                coord_quelle := some (quelleOf hit) }, Outcome.matched)
    | none => (b, Outcome.unmatched)

/-- One enrichment loop over a record list, with mk building the
unmatched projection: returns the updated records, the pre-existing
coordinate count, the newly matched count and the unmatched rows in
order. -/
def geocodeList (wiki wfs : Index) (mk : Bridge → Unmatched) :
    List Bridge → List Bridge × Nat × Nat × List Unmatched
  | [] => ([], 0, 0, [])
  | b :: bs =>
    let su := enrichStep wiki wfs b
    let rest := geocodeList wiki wfs mk bs
    match su.2 with
    | Outcome.already => (su.1 :: rest.1, rest.2.1 + 1, rest.2.2.1, rest.2.2.2)
    | Outcome.matched => (su.1 :: rest.1, rest.2.1, rest.2.2.1 + 1, rest.2.2.2)
    | Outcome.unmatched => (su.1 :: rest.1, rest.2.1, rest.2.2.1, mk b :: rest.2.2.2)

/-- The unmatched projection of geocode_tagesspiegel. -/
def tagesspiegelUnmatched (b : Bridge) : Unmatched :=
  { file := "bruecken_tagesspiegel.json", id := b.id, bezirk := b.bezirk,
    name := b.name, detail := b.detail }

/-- Result of geocode_tagesspiegel: updated records plus the counts and
report it returns (file round-tripping is an external collaborator). -/
structure TsResult where
  bruecken : List Bridge
  already : Nat
  matchedCount : Nat
  total : Nat
  unmatched : List Unmatched
deriving DecidableEq, Repr

/-- geocode_tagesspiegel on the in-memory record list. -/
def geocode_tagesspiegel (wiki wfs : Index) (bruecken : List Bridge) : TsResult :=
  let r := geocodeList wiki wfs tagesspiegelUnmatched bruecken
  { bruecken := r.1, already := r.2.1, matchedCount := r.2.2.1,
    total := bruecken.length, unmatched := r.2.2.2 }

/-- One bezirk block of bruecken.json. -/
structure BezirkData where
  bezirk : String := ""
  bruecken : List Bridge := []
deriving DecidableEq, Repr

/-- The unmatched projection of the bezirke loop. -/
def bezirkUnmatched (bz : String) (b : Bridge) : Unmatched :=
  { file := "bruecken.json", sect := some "bezirke", bezirk := some bz, name := b.name }

/-- The unmatched projection of the erhaltungsmassnahmen loop. -/
def erhaltUnmatched (b : Bridge) : Unmatched :=
  { file := "bruecken.json", sect := some "erhaltungsmassnahmen",
    bezirk := b.bezirk, name := b.name }

/-- The bezirke part of geocode_bruecken_json. -/
def geocodeBezirke (wiki wfs : Index) :
    List BezirkData → List BezirkData × Nat × Nat × Nat × List Unmatched
  | [] => ([], 0, 0, 0, [])
  | bd :: rest =>
    let r := geocodeList wiki wfs (bezirkUnmatched bd.bezirk) bd.bruecken
    let q := geocodeBezirke wiki wfs rest
    ({ bezirk := bd.bezirk, bruecken := r.1 } :: q.1,
     r.2.1 + q.2.1, r.2.2.1 + q.2.2.1, bd.bruecken.length + q.2.2.2.1,
     r.2.2.2 ++ q.2.2.2.2)

/-- Result of geocode_bruecken_json. -/
structure BjResult where
  bezirke : List BezirkData
  erhaltung : List Bridge
  already : Nat
  matchedCount : Nat
  total : Nat
  unmatched : List Unmatched
deriving DecidableEq, Repr

/-- geocode_bruecken_json on the in-memory data: the bezirke loops
followed by the erhaltungsmassnahmen loop, counts accumulated across
both. -/
def geocode_bruecken_json (wiki wfs : Index) (bezirke : List BezirkData)
    (erhaltung : List Bridge) : BjResult :=
  let q := geocodeBezirke wiki wfs bezirke
  let r := geocodeList wiki wfs erhaltUnmatched erhaltung
  { bezirke := q.1, erhaltung := r.1,
    already := q.2.1 + r.2.1, matchedCount := q.2.2.1 + r.2.2.1,
    total := q.2.2.2.1 + erhaltung.length,
    unmatched := q.2.2.2.2 ++ r.2.2.2 }

/-! Helper lemmas about characters and the string scanners. -/

lemma char_le_iff {a b : Char} : a ≤ b ↔ a.toNat ≤ b.toNat := by
  rw [Char.le_def]
  exact ⟨fun h => by exact_mod_cast h, fun h => by exact_mod_cast h⟩

lemma allowed_ranges {c : Char} (h : allowedChar c = true) :
    (97 ≤ c.toNat ∧ c.toNat ≤ 122) ∨ (48 ≤ c.toNat ∧ c.toNat ≤ 57) ∨ c = ' ' ∨ c = '-' := by
  simp only [allowedChar, Bool.or_eq_true, Bool.and_eq_true, decide_eq_true_eq] at h
  have ea : ('a').toNat = 97 := rfl
  have ez : ('z').toNat = 122 := rfl
  have e0 : ('0').toNat = 48 := rfl
  have e9 : ('9').toNat = 57 := rfl
  rcases h with ((⟨h1, h2⟩ | ⟨h1, h2⟩) | h1) | h1
  · have u := char_le_iff.mp h1
    have v := char_le_iff.mp h2
    left; omega
  · have u := char_le_iff.mp h1
    have v := char_le_iff.mp h2
    right; left; omega
  · exact Or.inr (Or.inr (Or.inl h1))
  · exact Or.inr (Or.inr (Or.inr h1))

lemma allowed_ne {c : Char} (h : allowedChar c = true) {d : Char}
    (hd : allowedChar d = false) : c ≠ d := by
  intro he
  rw [he, hd] at h
  exact Bool.false_ne_true h

lemma allowed_space_eq {c : Char} (h : allowedChar c = true)
    (hs : isSpacePy c = true) : c = ' ' := by
  simp only [isSpacePy, Bool.or_eq_true, decide_eq_true_eq] at hs
  rcases hs with (((((((h1 | h1) | h1) | h1) | h1) | h1) | h1) | h1)
  · exact h1
  all_goals (exfalso; subst h1; exact absurd h (by decide))

lemma allowed_toNat_lt {c : Char} (h : allowedChar c = true) : c.toNat < 128 := by
  rcases allowed_ranges h with ⟨_, hb⟩ | ⟨_, hb⟩ | he | he
  · omega
  · omega
  · subst he; decide
  · subst he; decide

lemma allowed_toLower {c : Char} (h : allowedChar c = true) : toLowerPy c = c := by
  have hr := allowed_ranges h
  have eA : ('A').toNat = 65 := rfl
  have eZ : ('Z').toNat = 90 := rfl
  have h1 : ('A' ≤ c && c ≤ 'Z') = false := by
    rw [Bool.and_eq_false_iff]
    rcases hr with ⟨ha, _⟩ | ⟨ha, _⟩ | he | he
    · right; simp only [decide_eq_false_iff_not]
      intro hle; have := char_le_iff.mp hle; omega
    · left; simp only [decide_eq_false_iff_not]
      intro hle; have := char_le_iff.mp hle; omega
    · subst he; left; decide
    · subst he; left; decide
  have h2 : (0xC0 ≤ c.toNat && c.toNat ≤ 0xDE && c.toNat ≠ 0xD7) = false := by
    have hlt : c.toNat < 128 := allowed_toNat_lt h
    simp only [Bool.and_eq_false_iff]
    left; left; simp only [decide_eq_false_iff_not]; omega
  have h3 : c ≠ 'ẞ' := allowed_ne h (by decide)
  simp only [toLowerPy, h1, h2, Bool.false_eq_true, if_false, if_neg h3]

lemma allowed_nfkd {c : Char} (h : allowedChar c = true) : nfkdChar c = [c] := by
  simp only [nfkdChar, if_pos (allowed_toNat_lt h)]

lemma allowed_not_combining {c : Char} (h : allowedChar c = true) :
    isCombining c = false := by
  have hlt := allowed_toNat_lt h
  simp only [isCombining, Bool.and_eq_false_iff]
  left; left; simp only [decide_eq_false_iff_not]; omega

lemma matchesAt_subset {pat : Str} : ∀ {s : Str}, matchesAt pat s = true → ∀ p ∈ pat, p ∈ s := by
  induction pat with
  | nil => intro s _ p hp; simp at hp
  | cons q qs ih =>
    intro s hm p hp
    cases s with
    | nil => simp [matchesAt] at hm
    | cons c cs =>
      simp only [matchesAt, Bool.and_eq_true, decide_eq_true_eq] at hm
      rcases List.mem_cons.mp hp with he | hmem
      · subst he; rw [hm.1]; exact List.mem_cons_self c cs
      · exact List.mem_cons_of_mem c (ih hm.2 p hmem)

lemma isSub_subset {pat : Str} : ∀ {s : Str}, isSub pat s = true → ∀ p ∈ pat, p ∈ s := by
  intro s
  induction s with
  | nil =>
    intro h p hp
    simp only [isSub, List.isEmpty_iff] at h
    subst h; simp at hp
  | cons c cs ih =>
    intro h p hp
    simp only [isSub, Bool.or_eq_true] at h
    rcases h with hm | hs
    · exact matchesAt_subset hm p hp
    · exact List.mem_cons_of_mem c (ih hs p hp)

lemma isSub_false_of_excluded {pat s : Str} (hA : ∀ c ∈ s, allowedChar c = true)
    {p : Char} (hp : p ∈ pat) (hbad : allowedChar p = false) : isSub pat s = false := by
  cases hsub : isSub pat s with
  | false => rfl
  | true =>
    exfalso
    have := hA p (isSub_subset hsub p hp)
    rw [hbad] at this
    exact Bool.false_ne_true this

lemma isSub_tail {pat : Str} {c : Char} {cs : Str} (h : isSub pat (c :: cs) = false) :
    isSub pat cs = false := by
  simp only [isSub, Bool.or_eq_false_iff] at h
  exact h.2

lemma stripFootnotesAux_id : ∀ (fuel : Nat) (s : Str), (∀ c ∈ s, c ≠ '[') →
    stripFootnotesAux fuel s = s := by
  intro fuel
  induction fuel with
  | zero => intro s _; rfl
  | succ n ih =>
    intro s h
    cases s with
    | nil => rfl
    | cons c cs =>
      have hc : ¬(c = '[') := h c (List.mem_cons_self c cs)
      simp only [stripFootnotesAux, if_neg hc]
      rw [ih cs (fun d hd => h d (List.mem_cons_of_mem c hd))]

lemma stripFootnotes_id {s : Str} (h : ∀ c ∈ s, c ≠ '[') : stripFootnotes s = s :=
  stripFootnotesAux_id s.length s h

lemma pyReplaceAux_id {pat rep : Str} : ∀ (fuel : Nat) (s : Str), isSub pat s = false →
    pyReplaceAux pat rep fuel s = s := by
  intro fuel
  induction fuel with
  | zero => intro s _; rfl
  | succ n ih =>
    intro s h
    cases s with
    | nil => rfl
    | cons c cs =>
      have hm : matchesAt pat (c :: cs) = false := by
        simp only [isSub, Bool.or_eq_false_iff] at h
        exact h.1
      simp only [pyReplaceAux, hm, Bool.and_false, Bool.false_eq_true, if_false]
      rw [ih cs (isSub_tail h)]

lemma pyReplace_id {s pat rep : Str} (h : isSub pat s = false) : pyReplace s pat rep = s :=
  pyReplaceAux_id s.length s h

lemma map_id_of_mem {f : Char → Char} : ∀ {l : Str}, (∀ c ∈ l, f c = c) → l.map f = l := by
  intro l
  induction l with
  | nil => intro _; rfl
  | cons c cs ih =>
    intro h
    simp only [List.map_cons]
    rw [h c (List.mem_cons_self c cs), ih (fun d hd => h d (List.mem_cons_of_mem c hd))]

lemma flatMap_id_of_mem {f : Char → List Char} : ∀ {l : Str}, (∀ c ∈ l, f c = [c]) →
    l.flatMap f = l := by
  intro l
  induction l with
  | nil => intro _; rfl
  | cons c cs ih =>
    intro h
    simp only [List.flatMap_cons]
    rw [h c (List.mem_cons_self c cs), ih (fun d hd => h d (List.mem_cons_of_mem c hd))]
    rfl

lemma dropWhile_id_of_head {p : Char → Bool} {l : Str}
    (h : ∀ c, l.head? = some c → p c = false) : l.dropWhile p = l := by
  cases l with
  | nil => rfl
  | cons c cs =>
    have := h c rfl
    simp [List.dropWhile, this]

lemma pyStrip_id {s : Str} (h1 : ∀ c, s.head? = some c → isSpacePy c = false)
    (h2 : ∀ c, s.getLast? = some c → isSpacePy c = false) : pyStrip s = s := by
  unfold pyStrip
  rw [dropWhile_id_of_head h1]
  rw [dropWhile_id_of_head (fun c hc => h2 c (by rwa [List.head?_reverse] at hc))]
  exact List.reverse_reverse s

lemma collapseWsAux_id : ∀ (fuel : Nat) (s : Str), (∀ c ∈ s, allowedChar c = true) →
    isSub [' ', ' '] s = false → collapseWsAux fuel s = s := by
  intro fuel
  induction fuel with
  | zero => intro s _ _; rfl
  | succ n ih =>
    intro s hA hSS
    cases s with
    | nil => rfl
    | cons c cs =>
      have hAc := hA c (List.mem_cons_self c cs)
      have hAcs : ∀ d ∈ cs, allowedChar d = true := fun d hd => hA d (List.mem_cons_of_mem c hd)
      cases hsp : isSpacePy c with
      | false =>
        simp only [collapseWsAux, hsp, Bool.false_eq_true, if_false]
        rw [ih cs hAcs (isSub_tail hSS)]
      | true =>
        have hc : c = ' ' := allowed_space_eq hAc hsp
        have hdrop : cs.dropWhile isSpacePy = cs := by
          cases cs with
          | nil => rfl
          | cons d0 ds =>
            have hd0 : isSpacePy d0 = false := by
              cases hspd : isSpacePy d0 with
              | false => rfl
              | true =>
                exfalso
                have hd' : d0 = ' ' :=
                  allowed_space_eq (hAcs d0 (List.mem_cons_self d0 ds)) hspd
                have hm : matchesAt [' ', ' '] (c :: d0 :: ds) = true := by
                  rw [hc, hd']; simp [matchesAt]
                simp only [isSub, hm, Bool.true_or] at hSS
                exact absurd hSS (by decide)
            simp [List.dropWhile, hd0]
        simp only [collapseWsAux, hsp, if_true, hdrop]
        rw [ih cs hAcs (isSub_tail hSS), hc]

lemma head?_dropWhile_false {p : Char → Bool} : ∀ {l : Str} {c : Char},
    (l.dropWhile p).head? = some c → p c = false := by
  intro l
  induction l with
  | nil => intro c h; simp [List.dropWhile] at h
  | cons d ds ih =>
    intro c h
    cases hpd : p d with
    | true =>
      rw [List.dropWhile_cons_of_pos hpd] at h
      exact ih h
    | false =>
      rw [List.dropWhile_cons_of_neg (by simp [hpd])] at h
      have : d = c := by simpa using h
      rwa [this] at hpd

lemma getLast?_dropWhile_of_ne_nil {p : Char → Bool} {l : Str} (h : l.dropWhile p ≠ []) :
    (l.dropWhile p).getLast? = l.getLast? := by
  obtain ⟨t, ht⟩ := List.dropWhile_suffix (l := l) p
  conv_rhs => rw [← ht]
  exact (List.getLast?_append_of_ne_nil t h).symm

lemma pyStrip_head_not_space {s : Str} : ∀ c, (pyStrip s).head? = some c →
    isSpacePy c = false := by
  intro c h
  unfold pyStrip at h
  rw [List.head?_reverse] at h
  have hne : (s.dropWhile isSpacePy).reverse.dropWhile isSpacePy ≠ [] := by
    intro he
    rw [he] at h
    simp at h
  rw [getLast?_dropWhile_of_ne_nil hne, List.getLast?_reverse] at h
  exact head?_dropWhile_false h

lemma pyStrip_getLast_not_space {s : Str} : ∀ c, (pyStrip s).getLast? = some c →
    isSpacePy c = false := by
  intro c h
  unfold pyStrip at h
  rw [List.getLast?_reverse] at h
  exact head?_dropWhile_false h

lemma mem_pyStrip {s : Str} {c : Char} (h : c ∈ pyStrip s) : c ∈ s := by
  unfold pyStrip at h
  rw [List.mem_reverse] at h
  have h2 := (List.dropWhile_sublist (l := (s.dropWhile isSpacePy).reverse) isSpacePy).subset h
  rw [List.mem_reverse] at h2
  exact (List.dropWhile_sublist (l := s) isSpacePy).subset h2

lemma normalizeName_shape (s : Str) :
    ∃ w : Str, normalizeName s = pyStrip (w.filter allowedChar) :=
  ⟨_, rfl⟩

lemma normalize_chars {s : Str} : ∀ c ∈ normalizeName s, allowedChar c = true := by
  obtain ⟨w, hw⟩ := normalizeName_shape s
  rw [hw]
  intro c hc
  exact List.of_mem_filter (mem_pyStrip hc)

lemma normalize_head {s : Str} : ∀ c, (normalizeName s).head? = some c →
    isSpacePy c = false := by
  obtain ⟨w, hw⟩ := normalizeName_shape s
  rw [hw]
  exact pyStrip_head_not_space

lemma normalize_getLast {s : Str} : ∀ c, (normalizeName s).getLast? = some c →
    isSpacePy c = false := by
  obtain ⟨w, hw⟩ := normalizeName_shape s
  rw [hw]
  exact pyStrip_getLast_not_space

/-- Fixed-point property of normalize_name: a string over the output
alphabet with no boundary whitespace, no doubled space and no
occurrence of a purely alphanumeric abbreviation pattern passes
through every pipeline stage unchanged. -/
lemma normalize_fixed {y : Str}
    (hA : ∀ c ∈ y, allowedChar c = true)
    (hH : ∀ c, y.head? = some c → isSpacePy c = false)
    (hL : ∀ c, y.getLast? = some c → isSpacePy c = false)
    (hSS : isSub "  ".data y = false)
    (hBW : isSub "bw ".data y = false)
    (hUE : isSub "uebb".data y = false)
    (hFG : isSub "fgb ".data y = false)
    (hLA : isSub "laakebruecke".data y = false) :
    normalizeName y = y := by
  have hfoot : stripFootnotes y = y :=
    stripFootnotes_id (fun c hc => allowed_ne (hA c hc) (by decide))
  have hd1 : pyReplace y ['–'] ['-'] = y :=
    pyReplace_id (@isSub_false_of_excluded ['–'] y hA '–' (by decide) (by decide))
  have hd2 : pyReplace y ['—'] ['-'] = y :=
    pyReplace_id (@isSub_false_of_excluded ['—'] y hA '—' (by decide) (by decide))
  have hd3 : pyReplace y ['ß'] ['s', 's'] = y :=
    pyReplace_id (@isSub_false_of_excluded ['ß'] y hA 'ß' (by decide) (by decide))
  have hd4 : pyReplace y ['ä'] ['a', 'e'] = y :=
    pyReplace_id (@isSub_false_of_excluded ['ä'] y hA 'ä' (by decide) (by decide))
  have hd5 : pyReplace y ['ö'] ['o', 'e'] = y :=
    pyReplace_id (@isSub_false_of_excluded ['ö'] y hA 'ö' (by decide) (by decide))
  have hd6 : pyReplace y ['ü'] ['u', 'e'] = y :=
    pyReplace_id (@isSub_false_of_excluded ['ü'] y hA 'ü' (by decide) (by decide))
  have hd7 : pyReplace y ['Ä'] ['A', 'e'] = y :=
    pyReplace_id (@isSub_false_of_excluded ['Ä'] y hA 'Ä' (by decide) (by decide))
  have hd8 : pyReplace y ['Ö'] ['O', 'e'] = y :=
    pyReplace_id (@isSub_false_of_excluded ['Ö'] y hA 'Ö' (by decide) (by decide))
  have hd9 : pyReplace y ['Ü'] ['U', 'e'] = y :=
    pyReplace_id (@isSub_false_of_excluded ['Ü'] y hA 'Ü' (by decide) (by decide))
  have hlow : y.map toLowerPy = y :=
    map_id_of_mem (fun c hc => allowed_toLower (hA c hc))
  have ha1 : pyReplace y " d. ".data " der ".data = y :=
    pyReplace_id (@isSub_false_of_excluded (" d. ".data) y hA '.' (by decide) (by decide))
  have ha2 : pyReplace y " d.".data " der".data = y :=
    pyReplace_id (@isSub_false_of_excluded (" d.".data) y hA '.' (by decide) (by decide))
  have ha3 : pyReplace y "nördl.".data "noerdliche".data = y :=
    pyReplace_id (@isSub_false_of_excluded ("nördl.".data) y hA 'ö' (by decide) (by decide))
  have ha4 : pyReplace y "südl.".data "suedliche".data = y :=
    pyReplace_id (@isSub_false_of_excluded ("südl.".data) y hA 'ü' (by decide) (by decide))
  have ha5 : pyReplace y "östl.".data "oestliche".data = y :=
    pyReplace_id (@isSub_false_of_excluded ("östl.".data) y hA 'ö' (by decide) (by decide))
  have ha6 : pyReplace y "westl.".data "westliche".data = y :=
    pyReplace_id (@isSub_false_of_excluded ("westl.".data) y hA '.' (by decide) (by decide))
  have ha7 : pyReplace y "br.".data "bruecke".data = y :=
    pyReplace_id (@isSub_false_of_excluded ("br.".data) y hA '.' (by decide) (by decide))
  have ha8 : pyReplace y "str.".data "strasse".data = y :=
    pyReplace_id (@isSub_false_of_excluded ("str.".data) y hA '.' (by decide) (by decide))
  have ha9 : pyReplace y "bw.".data "bauwerk ".data = y :=
    pyReplace_id (@isSub_false_of_excluded ("bw.".data) y hA '.' (by decide) (by decide))
  have ha10 : pyReplace y "bw ".data "bauwerk ".data = y := pyReplace_id hBW
  have ha11 : pyReplace y "uebb".data "ueberbau".data = y := pyReplace_id hUE
  have ha12 : pyReplace y "übb".data "ueberbau".data = y :=
    pyReplace_id (@isSub_false_of_excluded ("übb".data) y hA 'ü' (by decide) (by decide))
  have ha13 : pyReplace y "fgb ".data "fussgaengerbruecke ".data = y := pyReplace_id hFG
  have ha14 : pyReplace y "laakebruecke".data "laake-bruecke".data = y := pyReplace_id hLA
  have hstrip : pyStrip y = y := pyStrip_id hH hL
  have hcoll : collapseWs y = y := by
    have hss' : isSub [' ', ' '] y = false := hSS
    exact collapseWsAux_id y.length y hA hss'
  have hfm : y.flatMap nfkdChar = y :=
    flatMap_id_of_mem (fun c hc => allowed_nfkd (hA c hc))
  have hfc : y.filter (fun c => !isCombining c) = y :=
    List.filter_eq_self.mpr (fun a ha => by rw [allowed_not_combining (hA a ha)]; rfl)
  have hfa : y.filter allowedChar = y := List.filter_eq_self.mpr hA
  unfold normalizeName
  simp only [abbrevs, List.foldl_cons, List.foldl_nil]
  rw [hfoot, hd1, hd2, hd3, hd4, hd5, hd6, hd7, hd8, hd9, hlow,
      ha1, ha2, ha3, ha4, ha5, ha6, ha7, ha8, ha9, ha10, ha11, ha12, ha13, ha14,
      hstrip, hcoll, hfm, hfc, hfa, hstrip]

lemma normalize_name_data (s : String) : (normalize_name s).data = normalizeName s.data := by
  have e1 : normalize_name s = (⟨normalizeName s.data⟩ : String) := rfl
  rw [e1]

/-- C1: the spec documents abbreviation expansion (step 3) as running
before eszett/umlaut replacement (step 4), so that abbreviated
directional tokens written with an umlaut are expanded.  The code runs
the replacements in the opposite order, which makes the umlaut-keyed
abbreviation entries unreachable: "nördl. Brücke" normalizes to
"noerdl bruecke" and not to the expanded "noerdliche bruecke" that the
documented order (and the table entry "nördl." -> "noerdliche" itself)
requires. -/
theorem C1_abbrev_expansion_after_umlauts :
    normalize_name "nördl. Brücke" = "noerdl bruecke" ∧
    normalize_name "nördl. Brücke" ≠ "noerdliche bruecke" :=
  ⟨by decide, by decide⟩

/-- C2 counterexample: normalize is not idempotent.  The final
character filter of normalize("b.w x") deletes the dot and thereby
creates the abbreviation pattern "bw ", which the second application
expands to "bauwerk ". -/
theorem C2_normalize_not_idempotent :
    normalize_name "b.w x" = "bw x" ∧
    normalize_name (normalize_name "b.w x") = "bauwerk x" ∧
    normalize_name (normalize_name "b.w x") ≠ normalize_name "b.w x" :=
  ⟨by decide, by decide, by decide⟩

/-- C2 amended: normalizing an already-normalized key yields the same
key provided the key contains no doubled space (the character filter
can merge two spaces that were separated only by deleted characters)
and no occurrence of the purely alphanumeric abbreviation patterns
"bw ", "uebb", "fgb ", "laakebruecke" (which the filter can likewise
create by deleting characters). -/
theorem C2_normalize_idempotent_on_stable_outputs : ∀ x : String,
    isSub "  ".data (normalize_name x).data = false →
    isSub "bw ".data (normalize_name x).data = false →
    isSub "uebb".data (normalize_name x).data = false →
    isSub "fgb ".data (normalize_name x).data = false →
    isSub "laakebruecke".data (normalize_name x).data = false →
    normalize_name (normalize_name x) = normalize_name x := by
  intro x h1 h2 h3 h4 h5
  rw [normalize_name_data x] at h1 h2 h3 h4 h5
  have hfix : normalizeName (normalizeName x.data) = normalizeName x.data :=
    normalize_fixed normalize_chars normalize_head normalize_getLast h1 h2 h3 h4 h5
  calc normalize_name (normalize_name x)
      = (⟨normalizeName (normalize_name x).data⟩ : String) := rfl
    _ = (⟨normalizeName (normalizeName x.data)⟩ : String) := by rw [normalize_name_data x]
    _ = (⟨normalizeName x.data⟩ : String) := by rw [hfix]
    _ = normalize_name x := rfl

/-- C2 amended, witness at a concrete input. -/
theorem C2_normalize_idempotent_on_stable_outputs_witness :
    isSub "bw ".data (normalize_name "Unterbaumbrücke").data = false ∧
    normalize_name (normalize_name "Unterbaumbrücke") = normalize_name "Unterbaumbrücke" :=
  ⟨by decide, C2_normalize_idempotent_on_stable_outputs "Unterbaumbrücke"
    (by decide) (by decide) (by decide) (by decide) (by decide)⟩

/-- Sample entries used by the concrete witnesses. -/
def entryA : Entry :=
  { lat := 1, lon := 2, source := none, source_url := some "u",
    raw_name := "A", bauwerksnummer := none }

/-- Second sample entry, distinct from entryA. -/
def entryB : Entry :=
  { lat := 3, lon := 4, source := some "WFS Detailnetz Berlin", source_url := none,
    raw_name := "B", bauwerksnummer := some "7" }

/-- C9: a record whose name field is missing or empty resolves to
NoMatch immediately, for every pair of indices. -/
theorem C9_missing_name_no_match : ∀ (wiki wfs : Index) (b : Bridge),
    b.name = none ∨ b.name = some "" → match_bridge b wiki wfs = none := by
  intro wiki wfs b h
  rcases h with h | h
  · simp [match_bridge, h]
  · simp [match_bridge, h]

/-- C9 witness: the default record (no name) against a nonempty index. -/
theorem C9_missing_name_no_match_witness :
    match_bridge {} [("k", entryA)] [("k", entryB)] = none :=
  C9_missing_name_no_match [("k", entryA)] [("k", entryB)] {} (Or.inl rfl)

/-- C4: exact lookups are first-hit-wins by priority: search_indices
returns the Wikipedia entry whenever the key is present there (whatever
the WFS index holds), and match_bridge resolves a name whose exact
normalized key is in the Wikipedia index to that entry. -/
theorem C4_priority_first_hit_wins :
    (∀ (wiki wfs : Index) (k : String) (e : Entry),
       dlookup wiki k = some e → search_indices wiki wfs k = some e)
    ∧ (∀ (wiki wfs : Index) (b : Bridge) (nm : String) (e : Entry),
       b.name = some nm → nm ≠ "" → dlookup wiki (normalize_name nm) = some e →
       match_bridge b wiki wfs = some e) := by
  constructor
  · intro wiki wfs k e h
    simp [search_indices, h]
  · intro wiki wfs b nm e hb hnm hw
    have hs : search_indices wiki wfs (normalize_name nm) = some e := by
      simp [search_indices, hw]
    simp [match_bridge, hb, hnm, hs]

/-- C4 witness: a key present in both indices resolves to the
Wikipedia entry, not the WFS one. -/
theorem C4_priority_first_hit_wins_witness :
    search_indices [("testkey", entryA)] [("testkey", entryB)] "testkey" = some entryA ∧
    match_bridge { name := some "Testbruecke" }
      [("testbruecke", entryA)] [("testbruecke", entryB)] = some entryA :=
  ⟨C4_priority_first_hit_wins.1 [("testkey", entryA)] [("testkey", entryB)] "testkey" entryA rfl,
   C4_priority_first_hit_wins.2 [("testbruecke", entryA)] [("testbruecke", entryB)]
     { name := some "Testbruecke" } "Testbruecke" entryA rfl (by decide) rfl⟩

/-- C8: the suffix-stripped fallback: when the exact normalized key
misses everywhere, stripping actually changed the raw name, and the
stripped key is present, match_bridge returns that lookup's entry. -/
theorem C8_suffix_strip_fallback : ∀ (wiki wfs : Index) (b : Bridge) (nm : String) (e : Entry),
    b.name = some nm → nm ≠ "" →
    search_indices wiki wfs (normalize_name nm) = none →
    strip_suffix nm ≠ nm →
    search_indices wiki wfs (normalize_name (strip_suffix nm)) = some e →
    match_bridge b wiki wfs = some e := by
  intro wiki wfs b nm e hb hnm hmiss hne hhit
  simp [match_bridge, hb, hnm, hmiss, hne, hhit]

/-- C8 witness: the spec's own example, a target "X-Brücke Südost"
with "x-bruecke" present in an index. -/
theorem C8_suffix_strip_fallback_witness :
    match_bridge { name := some "X-Brücke Südost" } [("x-bruecke", entryA)] [] = some entryA :=
  C8_suffix_strip_fallback [("x-bruecke", entryA)] [] { name := some "X-Brücke Südost" }
    "X-Brücke Südost" entryA rfl (by decide) rfl (by decide) rfl

/-- The keys match_bridge ever submits to an exact index lookup
(strategies 1 to 3), in order: the exact key, the suffix-stripped key
(only when stripping changed the name), and the variation keys. -/
def exactCandidateKeys (nm : String) : List String :=
  normalize_name nm ::
    ((if strip_suffix nm ≠ nm then [normalize_name (strip_suffix nm)] else []) ++
     (variationsL nm.data).map (fun v => normalize_name ⟨v⟩))

/-- The keys match_bridge ever submits to the containment scan
(strategies 4 and 5): the suffix-stripped-or-original key, and the
main-name key when main-name extraction applies. -/
def fuzzyCandidateKeys (nm : String) : List String :=
  normalize_name (if strip_suffix nm ≠ nm then strip_suffix nm else nm) ::
    (if main_name_of nm ≠ "" ∧ main_name_of nm ≠ nm then [normalize_name (main_name_of nm)] else [])

lemma firstVarHit_mem {wiki wfs : Index} : ∀ {vs : List Str} {e : Entry},
    firstVarHit wiki wfs vs = some e →
    ∃ v ∈ vs, search_indices wiki wfs (normalize_name ⟨v⟩) = some e := by
  intro vs
  induction vs with
  | nil => intro e h; simp [firstVarHit] at h
  | cons v vs ih =>
    intro e h
    unfold firstVarHit at h
    cases hs : search_indices wiki wfs (normalize_name ⟨v⟩) with
    | some hit =>
      rw [hs] at h
      refine ⟨v, List.mem_cons_self v vs, ?_⟩
      rw [hs]
      simpa using h
    | none =>
      rw [hs] at h
      obtain ⟨w, hw, hse⟩ := ih h
      exact ⟨w, List.mem_cons_of_mem v hw, hse⟩

lemma firstVarHit_none {wiki wfs : Index} : ∀ {vs : List Str},
    (∀ v ∈ vs, search_indices wiki wfs (normalize_name ⟨v⟩) = none) →
    firstVarHit wiki wfs vs = none := by
  intro vs
  induction vs with
  | nil => intro _; rfl
  | cons v vs ih =>
    intro h
    unfold firstVarHit
    rw [h v (List.mem_cons_self v vs)]
    exact ih (fun w hw => h w (List.mem_cons_of_mem v hw))

lemma fuzzy_mem {wfs : Index} {k : String} {e : Entry}
    (h : fuzzy_search_wfs wfs k = some e) : ∃ p ∈ wfs, p.2 = e := by
  unfold fuzzy_search_wfs at h
  cases hf : wfs.find? (fun p => isSub k.data p.1.data || isSub p.1.data k.data) with
  | none => rw [hf] at h; simp at h
  | some p =>
    rw [hf] at h
    refine ⟨p, List.mem_of_find?_eq_some hf, ?_⟩
    simpa using h

/-- C5: the containment strategies are confined to the lowest-priority
index and to long keys.  First part: every hit of match_bridge is
either an exact lookup of one of the candidate keys (consulted through
search_indices, hence subject to priority), or an entry of the WFS
index found by containment with a candidate key of length at least 6 -
never a containment hit against the Wikipedia index.  Second part: when
all exact candidates miss and every fuzzy candidate key is shorter than
6 characters, resolution returns NoMatch no matter what the WFS index
contains - no containment scan takes place. -/
theorem C5_fuzzy_restricted_to_wfs :
    (∀ (b : Bridge) (wiki wfs : Index) (e : Entry), match_bridge b wiki wfs = some e →
       ∃ nm, b.name = some nm ∧
         ((∃ k ∈ exactCandidateKeys nm, search_indices wiki wfs k = some e) ∨
          (∃ k ∈ fuzzyCandidateKeys nm, 6 ≤ k.length ∧ fuzzy_search_wfs wfs k = some e ∧
             ∃ p ∈ wfs, p.2 = e)))
    ∧ (∀ (b : Bridge) (wiki wfs : Index) (nm : String), b.name = some nm →
       (∀ k ∈ exactCandidateKeys nm, search_indices wiki wfs k = none) →
       (∀ k ∈ fuzzyCandidateKeys nm, k.length < 6) →
       match_bridge b wiki wfs = none) := by
  constructor
  · intro b wiki wfs e h
    cases hbn : b.name with
    | none =>
      exfalso
      have hz : match_bridge b wiki wfs = none := by simp [match_bridge, hbn]
      rw [hz] at h
      exact Option.noConfusion h
    | some nm =>
      refine ⟨nm, rfl, ?_⟩
      by_cases hnm : nm = ""
      · exfalso
        have hz : match_bridge b wiki wfs = none := by simp [match_bridge, hbn, hnm]
        rw [hz] at h
        exact Option.noConfusion h
      · unfold match_bridge at h
        rw [hbn] at h
        simp only [Option.getD_some] at h
        rw [if_neg hnm] at h
        by_cases hbs : strip_suffix nm = nm
        · simp only [hbs, ne_eq, eq_self_iff_true, not_true, if_false, ite_false,
            if_true, ite_true, not_false_iff] at h
          split at h
          next hit heq =>
            obtain rfl : hit = e := by simpa using h
            exact Or.inl ⟨_, List.mem_cons_self _ _, heq⟩
          next heq1 =>
            split at h
            next hit heq =>
              obtain rfl : hit = e := by simpa using h
              obtain ⟨v, hv, hse⟩ := firstVarHit_mem heq
              refine Or.inl ⟨normalize_name ⟨v⟩, ?_, hse⟩
              simp only [exactCandidateKeys]
              exact List.mem_cons_of_mem _
                (List.mem_append_right _ (List.mem_map_of_mem _ hv))
            next heq3 =>
              split at h
              next hit heq =>
                split at heq
                next hlen =>
                  obtain rfl : hit = e := by simpa using h
                  refine Or.inr ⟨normalize_name nm, ?_, hlen, heq, fuzzy_mem heq⟩
                  simp [fuzzyCandidateKeys, hbs]
                next hlen =>
                  exact Option.noConfusion heq
              next heq4 =>
                split at h
                next hmn =>
                  split at h
                  next hlen =>
                    refine Or.inr ⟨normalize_name (main_name_of nm), ?_, hlen, h, fuzzy_mem h⟩
                    simp [fuzzyCandidateKeys, hmn]
                  next hlen =>
                    exact Option.noConfusion h
                next hmn =>
                  exact Option.noConfusion h
        · simp only [ne_eq, hbs, not_false_eq_true, if_true, ite_true] at h
          split at h
          next hit heq =>
            obtain rfl : hit = e := by simpa using h
            exact Or.inl ⟨_, List.mem_cons_self _ _, heq⟩
          next heq1 =>
            split at h
            next hit heq =>
              obtain rfl : hit = e := by simpa using h
              refine Or.inl ⟨normalize_name (strip_suffix nm), ?_, heq⟩
              simp [exactCandidateKeys, hbs]
            next heq2 =>
              split at h
              next hit heq =>
                obtain rfl : hit = e := by simpa using h
                obtain ⟨v, hv, hse⟩ := firstVarHit_mem heq
                refine Or.inl ⟨normalize_name ⟨v⟩, ?_, hse⟩
                simp only [exactCandidateKeys]
                exact List.mem_cons_of_mem _
                  (List.mem_append_right _ (List.mem_map_of_mem _ hv))
              next heq3 =>
                split at h
                next hit heq =>
                  split at heq
                  next hlen =>
                    obtain rfl : hit = e := by simpa using h
                    refine Or.inr ⟨normalize_name (strip_suffix nm), ?_, hlen, heq, fuzzy_mem heq⟩
                    simp [fuzzyCandidateKeys, hbs]
                  next hlen =>
                    exact Option.noConfusion heq
                next heq4 =>
                  split at h
                  next hmn =>
                    split at h
                    next hlen =>
                      refine Or.inr ⟨normalize_name (main_name_of nm), ?_, hlen, h, fuzzy_mem h⟩
                      simp [fuzzyCandidateKeys, hmn]
                    next hlen =>
                      exact Option.noConfusion h
                  next hmn =>
                    exact Option.noConfusion h
  · intro b wiki wfs nm hb hE hF
    by_cases hnm : nm = ""
    · simp [match_bridge, hb, hnm]
    · have h1 : search_indices wiki wfs (normalize_name nm) = none :=
        hE _ (List.mem_cons_self _ _)
      have h3 : firstVarHit wiki wfs (variationsL nm.data) = none := by
        apply firstVarHit_none
        intro v hv
        apply hE
        simp only [exactCandidateKeys]
        exact List.mem_cons_of_mem _
          (List.mem_append_right _ (List.mem_map_of_mem _ hv))
      unfold match_bridge
      rw [hb]
      simp only [Option.getD_some]
      rw [if_neg hnm]
      by_cases hbs : strip_suffix nm = nm
      · have h4 : (6 ≤ (normalize_name nm).length) = False := by
          apply eq_false
          apply Nat.not_le.mpr
          have := hF _ (List.mem_cons_self _ _)
          simpa [hbs] using this
        by_cases hmn : main_name_of nm ≠ "" ∧ main_name_of nm ≠ nm
        · have h5 : (6 ≤ (normalize_name (main_name_of nm)).length) = False := by
            apply eq_false
            apply Nat.not_le.mpr
            exact hF _ (by simp [fuzzyCandidateKeys, hmn])
          have hmne : (main_name_of nm ≠ "" ∧ main_name_of nm ≠ nm) = True := eq_true hmn
          simp only [hbs, ne_eq, eq_self_iff_true, not_true, if_false, ite_false,
            if_true, ite_true, not_false_iff, h1, h3, h4, h5, hmne]
        · have hmne : (main_name_of nm ≠ "" ∧ main_name_of nm ≠ nm) = False := eq_false hmn
          simp only [hbs, ne_eq, eq_self_iff_true, not_true, if_false, ite_false,
            if_true, ite_true, not_false_iff, h1, h3, h4, hmne]
      · have h2 : search_indices wiki wfs (normalize_name (strip_suffix nm)) = none :=
          hE _ (by simp [exactCandidateKeys, hbs])
        have h4 : (6 ≤ (normalize_name (strip_suffix nm)).length) = False := by
          apply eq_false
          apply Nat.not_le.mpr
          have := hF _ (List.mem_cons_self _ _)
          simpa [hbs] using this
        by_cases hmn : main_name_of nm ≠ "" ∧ main_name_of nm ≠ nm
        · have h5 : (6 ≤ (normalize_name (main_name_of nm)).length) = False := by
            apply eq_false
            apply Nat.not_le.mpr
            exact hF _ (by simp [fuzzyCandidateKeys, hmn])
          have hmne : (main_name_of nm ≠ "" ∧ main_name_of nm ≠ nm) = True := eq_true hmn
          simp only [ne_eq, hbs, not_false_eq_true, if_true, ite_true,
            h1, h2, h3, h4, h5, hmne, if_false, ite_false]
        · have hmne : (main_name_of nm ≠ "" ∧ main_name_of nm ≠ nm) = False := eq_false hmn
          simp only [ne_eq, hbs, not_false_eq_true, if_true, ite_true,
            h1, h2, h3, h4, hmne, if_false, ite_false]

/-- C5 witness: a hit through the exact strategy satisfies the
characterization, and a short name (key "abc", length 3) yields NoMatch
even though a containment partner "xxabcxx" sits in the WFS index. -/
theorem C5_fuzzy_restricted_to_wfs_witness :
    (∃ nm, (({ name := some "Testbruecke" } : Bridge).name = some nm) ∧
       ((∃ k ∈ exactCandidateKeys nm,
           search_indices [("testbruecke", entryA)] [] k = some entryA) ∨
        (∃ k ∈ fuzzyCandidateKeys nm, 6 ≤ k.length ∧
           fuzzy_search_wfs [] k = some entryA ∧ ∃ p ∈ ([] : Index), p.2 = entryA)))
    ∧ match_bridge { name := some "Abc" } [] [("xxabcxx", entryB)] = none :=
  ⟨C5_fuzzy_restricted_to_wfs.1 { name := some "Testbruecke" } [("testbruecke", entryA)] []
      entryA rfl,
   C5_fuzzy_restricted_to_wfs.2 { name := some "Abc" } [] [("xxabcxx", entryB)] "Abc"
      rfl (by decide) (by decide)⟩

/-- C3 counterexample: the builders do not skip empty normalized keys.
A wiki row whose name cell "#" normalizes to the empty string is
registered under the empty key, and resolving the record named "#"
(a nonempty raw name with empty normalized key) returns a match via the
exact lookup. -/
theorem C3_empty_key_counterexample :
    (dlookup (build_wiki_index "A" [["", "#", "", "", "52.5 13.4"]]) "").isSome = true ∧
    normalize_name "#" = "" ∧
    (match_bridge { name := some "#" }
       (build_wiki_index "A" [["", "#", "", "", "52.5 13.4"]]) []).isSome = true :=
  ⟨rfl, rfl, rfl⟩

/-- C3 amended: the reference builders register every kept record under
the normalized display name with no emptiness guard - the wiki builder
keeps any row with at least five cells and a parseable coordinate, the
WFS builder any feature with nonempty raw name and usable geometry -
so a display name normalizing to the empty string is indexed under the
empty key (and an empty-keyed target can then match, as the
counterexample shows); only rows without coordinates, and features with
empty raw name or geometry, are skipped. -/
theorem C3_builders_register_normalized_key :
    (∀ (seg c0 nmc c2 c3 lage : String) (la lo : ℚ),
       coord_search lage = some (la, lo) →
       dlookup (build_wiki_index seg [[c0, nmc, c2, c3, lage]]) (normalize_name nmc) =
         some { lat := la, lon := lo, source := none,
                source_url := some (WIKI_BASE ++ "/" ++ seg),
                raw_name := nmc, bauwerksnummer := none })
    ∧ (∀ (f : Feature) (pts : List (ℚ × ℚ)), f.bauwerksname ≠ "" →
       f.geometry = some (Geom.lineString pts) → pts ≠ [] →
       dlookup (build_wfs_index [f]) (normalize_name f.bauwerksname) = some (wfsEntry f pts)) := by
  constructor
  · intro seg c0 nmc c2 c3 lage la lo h
    have hlen : ¬ ([c0, nmc, c2, c3, lage].length < 5) := by simp
    have hc4 : [c0, nmc, c2, c3, lage].getD 4 "" = lage := rfl
    have hc1 : [c0, nmc, c2, c3, lage].getD 1 "" = nmc := rfl
    unfold build_wiki_index
    simp only [List.foldl_cons, List.foldl_nil]
    unfold wikiRowStep
    rw [if_neg hlen]
    simp only [hc4, hc1, h]
    simp [dinsert, dlookup]
  · intro f pts hname hg hpts
    simp only [build_wfs_index, List.foldl_cons, List.foldl_nil, wfsStep, hg,
      if_neg hname]
    rw [if_neg (by simpa [List.isEmpty_iff] using hpts)]
    simp [dinsert, dlookup]

/-- C3 witness for the amended claim, at the same empty-key row. -/
theorem C3_builders_register_normalized_key_witness :
    dlookup (build_wiki_index "A" [["", "#", "", "", "52.5 13.4"]]) (normalize_name "#") =
      some { lat := ratOfParts false ['5', '2'] ['5'], lon := ratOfParts false ['1', '3'] ['4'],
             source := none, source_url := some (WIKI_BASE ++ "/" ++ "A"),
             raw_name := "#", bauwerksnummer := none } :=
  C3_builders_register_normalized_key.1 "A" "" "#" "" "" "52.5 13.4"
    (ratOfParts false ['5', '2'] ['5']) (ratOfParts false ['1', '3'] ['4']) rfl

/-- C6: the geometry-style builder reduces a line or multi-line
geometry to the arithmetic mean of all constituent points across all
sub-lines, independently for longitude and latitude, and registers that
centroid entry under the normalized name. -/
theorem C6_wfs_centroid_mean : ∀ (nm bn : String) (pts : List (ℚ × ℚ))
    (lls : List (List (ℚ × ℚ))), nm ≠ "" → pts ≠ [] → lls ≠ [] → lls.flatMap id ≠ [] →
    (build_wfs_index [(⟨nm, bn, some (Geom.lineString pts)⟩ : Feature)] =
      [(normalize_name nm,
        { lat := ((pts.map Prod.snd).sum) / (pts.length : ℚ),
          lon := ((pts.map Prod.fst).sum) / (pts.length : ℚ),
          source := some "WFS Detailnetz Berlin", source_url := none,
          raw_name := nm, bauwerksnummer := some bn })])
    ∧ (build_wfs_index [(⟨nm, bn, some (Geom.multiLineString lls)⟩ : Feature)] =
      [(normalize_name nm,
        { lat := ((lls.map (fun l => (l.map Prod.snd).sum)).sum) /
                   (((lls.map (fun l => l.length)).sum : Nat) : ℚ),
          lon := ((lls.map (fun l => (l.map Prod.fst).sum)).sum) /
                   (((lls.map (fun l => l.length)).sum : Nat) : ℚ),
          source := some "WFS Detailnetz Berlin", source_url := none,
          raw_name := nm, bauwerksnummer := some bn })]) := by
  intro nm bn pts lls hnm hpts hlls hflat
  constructor
  · simp only [build_wfs_index, List.foldl_cons, List.foldl_nil, wfsStep, if_neg hnm]
    rw [if_neg (by simpa [List.isEmpty_iff] using hpts)]
    simp [dinsert, wfsEntry]
  · simp only [build_wfs_index, List.foldl_cons, List.foldl_nil, wfsStep, if_neg hnm]
    rw [if_neg (by simpa [List.isEmpty_iff] using hlls)]
    rw [if_neg (by simpa [List.isEmpty_iff] using hflat)]
    simp only [dinsert, List.any_nil, Bool.false_eq_true, if_false, List.nil_append,
      wfsEntry]
    have hsnd : ((lls.flatMap id).map Prod.snd).sum =
        (lls.map (fun l => (l.map Prod.snd).sum)).sum := by
      rw [List.flatMap_id, List.map_flatten, List.sum_flatten, List.map_map]
      rfl
    have hfst : ((lls.flatMap id).map Prod.fst).sum =
        (lls.map (fun l => (l.map Prod.fst).sum)).sum := by
      rw [List.flatMap_id, List.map_flatten, List.sum_flatten, List.map_map]
      rfl
    have hlen : ((lls.flatMap id).length : ℚ) =
        (((lls.map (fun l => l.length)).sum : Nat) : ℚ) := by
      simp [List.length_flatMap]
    rw [hsnd, hfst, hlen]

/-- C6 witness: the two-point line geometry of the spec,
[(13.0, 52.0), (13.2, 52.2)] as (lon, lat) pairs, yields exactly
lon = 13.1 and lat = 52.1. -/
theorem C6_wfs_centroid_mean_witness :
    build_wfs_index
        [(⟨"Testbruecke", "", some (Geom.lineString [(13, 52), (13.2, 52.2)])⟩ : Feature)] =
      [("testbruecke",
        { lat := 52.1, lon := 13.1, source := some "WFS Detailnetz Berlin",
          source_url := none, raw_name := "Testbruecke", bauwerksnummer := some "" })] := by
  have h := (C6_wfs_centroid_mean "Testbruecke" "" [(13, 52), (13.2, 52.2)] [[(1, 1)]]
    (by decide) (by decide) (by decide) (by decide)).1
  rw [h]
  have hkey : normalize_name "Testbruecke" = "testbruecke" := by decide
  rw [hkey]
  norm_num

lemma enrichStep_second (wiki wfs : Index) (b : Bridge) :
    ((enrichStep wiki wfs b).2 = Outcome.already → (enrichStep wiki wfs b).1 = b)
    ∧ ((enrichStep wiki wfs b).2 = Outcome.unmatched → (enrichStep wiki wfs b).1 = b)
    ∧ ((enrichStep wiki wfs b).2 ≠ Outcome.unmatched →
        (enrichStep wiki wfs (enrichStep wiki wfs b).1).2 = Outcome.already)
    ∧ ((enrichStep wiki wfs b).2 = Outcome.unmatched →
        (enrichStep wiki wfs (enrichStep wiki wfs b).1).2 = Outcome.unmatched) := by
  by_cases hc : b.lat ≠ none ∧ b.lon ≠ none
  · refine ⟨fun _ => by simp [enrichStep, hc], fun hcon => ?_, fun _ => ?_, fun hcon => ?_⟩
    · rw [show (enrichStep wiki wfs b).2 = Outcome.already by simp [enrichStep, hc]] at hcon
      exact absurd hcon (by simp)
    · simp [enrichStep, hc]
    · rw [show (enrichStep wiki wfs b).2 = Outcome.already by simp [enrichStep, hc]] at hcon
      exact absurd hcon (by simp)
  · cases hm : match_bridge b wiki wfs with
    | some hit =>
      have hstep : enrichStep wiki wfs b =
          ({ b with lat := some hit.lat, lon := some hit.lon, coord_quelle := some (quelleOf hit) },
           Outcome.matched) := by
        simp [enrichStep, hc, hm]
      refine ⟨fun hcon => ?_, fun hcon => ?_, fun _ => ?_, fun hcon => ?_⟩
      · rw [hstep] at hcon; exact absurd hcon (by simp)
      · rw [hstep] at hcon; exact absurd hcon (by simp)
      · rw [hstep]
        simp [enrichStep]
      · rw [hstep] at hcon; exact absurd hcon (by simp)
    | none =>
      have hstep : enrichStep wiki wfs b = (b, Outcome.unmatched) := by
        simp [enrichStep, hc, hm]
      refine ⟨fun hcon => ?_, fun _ => by rw [hstep], fun hcon => ?_, fun _ => ?_⟩
      · rw [hstep] at hcon; exact absurd hcon (by simp)
      · rw [hstep] at hcon; exact absurd rfl hcon
      · rw [hstep]
        simp [enrichStep, hc, hm]

lemma geocodeList_twice (wiki wfs : Index) (mk mk2 : Bridge → Unmatched) :
    ∀ bs : List Bridge,
      (geocodeList wiki wfs mk2 (geocodeList wiki wfs mk bs).1).2.1 =
        (geocodeList wiki wfs mk bs).2.1 + (geocodeList wiki wfs mk bs).2.2.1 := by
  intro bs
  induction bs with
  | nil => rfl
  | cons b bs ih =>
    have hstep := enrichStep_second wiki wfs b
    cases hsu : (enrichStep wiki wfs b).2 with
    | already =>
      have h2 : (enrichStep wiki wfs (enrichStep wiki wfs b).1).2 = Outcome.already :=
        hstep.2.2.1 (by rw [hsu]; intro hcon; exact Outcome.noConfusion hcon)
      simp only [geocodeList, hsu]
      simp only [geocodeList, h2, ih]
      all_goals omega
    | matched =>
      have h2 : (enrichStep wiki wfs (enrichStep wiki wfs b).1).2 = Outcome.already :=
        hstep.2.2.1 (by rw [hsu]; intro hcon; exact Outcome.noConfusion hcon)
      simp only [geocodeList, hsu]
      simp only [geocodeList, h2, ih]
      all_goals omega
    | unmatched =>
      have h2 : (enrichStep wiki wfs (enrichStep wiki wfs b).1).2 = Outcome.unmatched :=
        hstep.2.2.2 hsu
      simp only [geocodeList, hsu]
      simp only [geocodeList, h2, ih]

lemma geocodeBezirke_twice (wiki wfs : Index) :
    ∀ bzs : List BezirkData,
      (geocodeBezirke wiki wfs (geocodeBezirke wiki wfs bzs).1).2.1 =
        (geocodeBezirke wiki wfs bzs).2.1 + (geocodeBezirke wiki wfs bzs).2.2.1 := by
  intro bzs
  induction bzs with
  | nil => rfl
  | cons bd rest ih =>
    simp only [geocodeBezirke]
    simp only [geocodeList_twice wiki wfs (bezirkUnmatched bd.bezirk) (bezirkUnmatched bd.bezirk)
      bd.bruecken, ih]
    omega

/-- C7: enrichment is idempotent.  A record carrying both coordinates
is counted as pre-existing and skipped, a matched record receives both
coordinates, and an unmatched record is left unchanged, so a second run
of either geocoding pass over the output of the first counts exactly
the first run's matched plus already records as already having
coordinates. -/
theorem C7_enrichment_idempotent : ∀ (wiki wfs : Index) (bruecken : List Bridge)
    (bezirke : List BezirkData) (erhaltung : List Bridge),
    ((geocode_tagesspiegel wiki wfs (geocode_tagesspiegel wiki wfs bruecken).bruecken).already =
       (geocode_tagesspiegel wiki wfs bruecken).matchedCount +
         (geocode_tagesspiegel wiki wfs bruecken).already)
    ∧ ((geocode_bruecken_json wiki wfs
          (geocode_bruecken_json wiki wfs bezirke erhaltung).bezirke
          (geocode_bruecken_json wiki wfs bezirke erhaltung).erhaltung).already =
        (geocode_bruecken_json wiki wfs bezirke erhaltung).matchedCount +
          (geocode_bruecken_json wiki wfs bezirke erhaltung).already) := by
  intro wiki wfs bruecken bezirke erhaltung
  constructor
  · simp only [geocode_tagesspiegel]
    simp only [geocodeList_twice wiki wfs tagesspiegelUnmatched tagesspiegelUnmatched bruecken]
    omega
  · simp only [geocode_bruecken_json]
    simp only [geocodeBezirke_twice wiki wfs bezirke,
      geocodeList_twice wiki wfs erhaltUnmatched erhaltUnmatched erhaltung]
    omega

/-- C10: one enrichment step mutates at most lat, lon and coord_quelle:
the identifier, administrative area, name, detail and all other fields
are unchanged in every case; on a match exactly the two coordinates and
the provenance string are set from the winning entry; on NoMatch the
record is returned entirely unchanged. -/
theorem C10_enrich_frame : ∀ (wiki wfs : Index) (b : Bridge),
    ((enrichStep wiki wfs b).1.id = b.id ∧ (enrichStep wiki wfs b).1.bezirk = b.bezirk ∧
     (enrichStep wiki wfs b).1.name = b.name ∧ (enrichStep wiki wfs b).1.detail = b.detail ∧
     (enrichStep wiki wfs b).1.rest = b.rest)
    ∧ ((enrichStep wiki wfs b).2 = Outcome.matched →
       ∃ e, match_bridge b wiki wfs = some e ∧
         (enrichStep wiki wfs b).1 =
           { b with lat := some e.lat, lon := some e.lon,
                    coord_quelle := some (quelleOf e) })
    ∧ ((enrichStep wiki wfs b).2 = Outcome.unmatched → (enrichStep wiki wfs b).1 = b) := by
  intro wiki wfs b
  by_cases hc : b.lat ≠ none ∧ b.lon ≠ none
  · refine ⟨by simp [enrichStep, hc], fun hcon => ?_, fun _ => by simp [enrichStep, hc]⟩
    rw [show (enrichStep wiki wfs b).2 = Outcome.already by simp [enrichStep, hc]] at hcon
    exact absurd hcon (by simp)
  · cases hm : match_bridge b wiki wfs with
    | some hit =>
      have hstep : enrichStep wiki wfs b =
          ({ b with lat := some hit.lat, lon := some hit.lon, coord_quelle := some (quelleOf hit) },
           Outcome.matched) := by
        simp [enrichStep, hc, hm]
      refine ⟨by rw [hstep]; simp, fun _ => ⟨hit, rfl, by rw [hstep]⟩, fun hcon => ?_⟩
      rw [hstep] at hcon
      exact absurd hcon (by simp)
    | none =>
      have hstep : enrichStep wiki wfs b = (b, Outcome.unmatched) := by
        simp [enrichStep, hc, hm]
      refine ⟨by rw [hstep]; simp, fun hcon => ?_, fun _ => by rw [hstep]⟩
      rw [hstep] at hcon
      exact absurd hcon (by simp)

/-- C10 witness: a record that fails to resolve against empty indices
comes back entirely unchanged. -/
theorem C10_enrich_frame_witness :
    (enrichStep [] [] { name := some "Nix" }).1 = { name := some "Nix" } :=
  (C10_enrich_frame [] [] { name := some "Nix" }).2.2 rfl

end GeocodeBridges
